import Mathlib

/-!
Shallow embedding of the price resolution subsystem of portfolio_app.py:
the functions fetch_current_price and get_current_prices.

Network effects are modelled by an explicit environment (Env) supplying the
outcome of each HTTP search attempt and each ticker price fetch, and every
observable action (search call, price call, backoff sleep, warning) is
recorded in an event log returned alongside the result.
-/

namespace Portfolio

/-- Model of a quote entry returned by the Yahoo Finance search endpoint:
the fields the code reads are exchange and symbol. -/
structure Quote where
  exchange : String
  symbol : String
deriving DecidableEq

/-- Outcome of one HTTP GET against the search endpoint: either a response
with a status code and a list of quotes (the quotes field of the JSON body,
meaningful when the status is 200), or a raised exception. -/
inductive SearchOutcome where
  | resp (status : Nat) (quotes : List Quote)
  | exc
deriving DecidableEq

/-- Outcome of reading regularMarketPrice for a ticker via yfinance: a value
(none models a missing field, some v a numeric price) or a raised
exception. -/
inductive PriceOutcome where
  | val (p : Option Int)
  | exc
deriving DecidableEq

/-- The environment: what the network returns. The search outcome may depend
on the attempt index, modelling responses that change across retries. -/
structure Env where
  search : String → Nat → SearchOutcome
  price : String → PriceOutcome

/-- The distinct warning messages the code can emit via st.warning. -/
inductive Warning where
  | rateLimited (isin : String)
  | searchFailed (isin : String) (status : Nat)
  | noQuotes (isin : String)
  | noPrice (isin : String)
  | fetchError (isin : String)
deriving DecidableEq

/-- Observable events of a run: an HTTP GET to the search endpoint, a price
fetch for a ticker symbol, a time.sleep of a duration in seconds, and a
warning. -/
inductive Event where
  | searchCall (isin : String)
  | priceCall (symbol : String)
  | sleep (seconds : Nat)
  | warn (w : Warning)
deriving DecidableEq

/-- Python endswith on strings, modelled on the character lists. -/
def strEndsWith (s post : String) : Bool :=
  post.data.isSuffixOf s.data

/-- Python truthiness of the fetched price: None and 0 are falsy, every other
number is truthy. -/
def truthy : Option Int → Bool
  | some v => v != 0
  | none => false

/-- The scan for an NSE ticker (portfolio_app.py lines 154-158): the first
quote whose exchange is NSI and whose symbol ends in .NS. -/
def findNse : List Quote → Option String
  | [] => none
  | q :: qs =>
    if q.exchange == "NSI" && strEndsWith q.symbol ".NS" then some q.symbol
    else findNse qs

/-- Control flow of one iteration of the retry loop: done r models a return
statement with value r, next models a continue to the following attempt. -/
inductive Control where
  | done (r : Option Int)
  | next
deriving DecidableEq

/-- The shared retry logic (lines 135-137 and 180-182): on a retryable
condition with attempts remaining, sleep retry_delay * (attempt + 1) and
continue; on exhaustion, warn and return None. -/
def backoff (attempt maxR delay : Nat) (w : Warning) : List Event × Control :=
  if attempt < maxR - 1 then ([Event.sleep (delay * (attempt + 1))], Control.next)
  else ([Event.warn w], Control.done none)

/-- The BSE fallback loop (lines 168-174): for each quote with exchange BSE
and symbol ending in .BO, fetch its price; return the first truthy price.
Except.error models an exception raised by the price fetch, caught by the
enclosing try. Falling off the loop yields Except.ok none. -/
def bseLoop (env : Env) : List Quote → List Event × Except Unit (Option Int)
  | [] => ([], Except.ok none)
  | q :: qs =>
    if q.exchange == "BSE" && strEndsWith q.symbol ".BO" then
      match env.price q.symbol with
      | PriceOutcome.exc => ([Event.priceCall q.symbol], Except.error ())
      | PriceOutcome.val p =>
        if truthy p then ([Event.priceCall q.symbol], Except.ok p)
        else
          let rest := bseLoop env qs
          (Event.priceCall q.symbol :: rest.1, rest.2)
    else bseLoop env qs

/-- What happens after the BSE loop inside one attempt: a truthy price is
returned, a fall-through warns that no price was found and returns None, and
a raised exception reaches the except handler (lines 168-177, 179-185). -/
def bsePhase (env : Env) (isin : String) (attempt maxR delay : Nat)
    (quotes : List Quote) : List Event × Control :=
  let b := bseLoop env quotes
  match b.2 with
  | Except.ok (some v) => (b.1, Control.done (some v))
  | Except.ok none => (b.1 ++ [Event.warn (Warning.noPrice isin)], Control.done none)
  | Except.error _ =>
    let k := backoff attempt maxR delay (Warning.fetchError isin)
    (b.1 ++ k.1, k.2)

/-- The body of one attempt after a 200 response with a non-empty quotes
list (lines 153-177): look for an NSE ticker; if found, fetch its price and
return it when truthy; otherwise fall back to the BSE loop. An exception in
the NSE price fetch reaches the except handler. -/
def quotesPhase (env : Env) (isin : String) (attempt maxR delay : Nat)
    (quotes : List Quote) : List Event × Control :=
  match findNse quotes with
  | none => bsePhase env isin attempt maxR delay quotes
  | some t =>
    match env.price t with
    | PriceOutcome.exc =>
      let k := backoff attempt maxR delay (Warning.fetchError isin)
      (Event.priceCall t :: k.1, k.2)
    | PriceOutcome.val p =>
      if truthy p then ([Event.priceCall t], Control.done p)
      else
        let b := bsePhase env isin attempt maxR delay quotes
        (Event.priceCall t :: b.1, b.2)

/-- One iteration of the retry loop of fetch_current_price (lines 123-185):
issue the search GET; handle 429 with backoff, non-200 with a warning and
return, an empty quotes list with a warning and return; otherwise run the
quote processing. A raised exception anywhere in the body reaches the except
handler, which retries with backoff or gives up. -/
def attemptStep (env : Env) (isin : String) (attempt maxR delay : Nat) :
    List Event × Control :=
  match env.search isin attempt with
  | SearchOutcome.exc =>
    let k := backoff attempt maxR delay (Warning.fetchError isin)
    (Event.searchCall isin :: k.1, k.2)
  | SearchOutcome.resp status quotes =>
    if status == 429 then
      let k := backoff attempt maxR delay (Warning.rateLimited isin)
      (Event.searchCall isin :: k.1, k.2)
    else if status != 200 then
      ([Event.searchCall isin, Event.warn (Warning.searchFailed isin status)],
        Control.done none)
    else if quotes.isEmpty then
      ([Event.searchCall isin, Event.warn (Warning.noQuotes isin)],
        Control.done none)
    else
      let b := quotesPhase env isin attempt maxR delay quotes
      (Event.searchCall isin :: b.1, b.2)

/-- The retry loop: attempt is the current loop index, rem the number of
iterations left in range(max_retries). Falling off the loop returns None
(line 187). -/
def fetchLoop (env : Env) (isin : String) (maxR delay : Nat) :
    Nat → Nat → List Event × Option Int
  | _, 0 => ([], none)
  | attempt, rem + 1 =>
    let s := attemptStep env isin attempt maxR delay
    match s.2 with
    | Control.done r => (s.1, r)
    | Control.next =>
      let rest := fetchLoop env isin maxR delay (attempt + 1) rem
      (s.1 ++ rest.1, rest.2)

/-- The constant max_retries = 3 of fetch_current_price (line 120). -/
def max_retries : Nat := 3

/-- The constant retry_delay = 2 seconds of fetch_current_price (line 121). -/
def retry_delay : Nat := 2

/-- fetch_current_price with the retry parameters made explicit. -/
def fetchWith (env : Env) (isin : String) (maxR delay : Nat) :
    List Event × Option Int :=
  fetchLoop env isin maxR delay 0 maxR

/-- fetch_current_price (lines 118-187): the whole lookup for one ISIN,
returning the event log and the price (none models returning None). -/
def fetch_current_price (env : Env) (isin : String) : List Event × Option Int :=
  fetchWith env isin max_retries retry_delay

/-- One input row of the dataframe: the columns get_current_prices reads. -/
structure Row where
  isin : String
  balance : Int
  rate : Int
deriving DecidableEq

/-- One output row: the input columns plus the two columns the function
adds, Current Price (none models None/NaN) and Current Value. -/
structure OutRow where
  isin : String
  balance : Int
  rate : Int
  currentPrice : Option Int
  currentValue : Int
deriving DecidableEq

/-- pandas unique on the ISIN column (line 202): first occurrences in order,
threaded through an accumulator of already seen values. -/
def uniqueAux (seen : List String) : List String → List String
  | [] => []
  | x :: xs =>
    if x ∈ seen then uniqueAux seen xs
    else x :: uniqueAux (x :: seen) xs

/-- The deduplicated identifier list, df.ISIN.unique(). -/
def uniqueIsins (l : List String) : List String :=
  uniqueAux [] l

/-- Resolution of each distinct ISIN (lines 209-233): one fetch per distinct
ISIN, a result recorded for each, and the throttle sleep of one second after
every fifth completion. The model serialises the worker pool; the claims
treated here depend only on the per-identifier events and results, not on
the interleaving. -/
def resolveAllAux (env : Env) (completed : Nat) :
    List String → List Event × List (String × Option Int)
  | [] => ([], [])
  | i :: is =>
    let f := fetch_current_price env i
    let throttle : List Event :=
      if (completed + 1) % 5 == 0 then [Event.sleep 1] else []
    let rest := resolveAllAux env (completed + 1) is
    (f.1 ++ throttle ++ rest.1, (i, f.2) :: rest.2)

/-- The per-row current price: the column is initialised to None (line 195)
and each row whose ISIN appears in the resolution results is updated
(lines 219-221). -/
def lookupResult (m : List (String × Option Int)) (i : String) : Option Int :=
  match m.lookup i with
  | some r => r
  | none => none

/-- get_current_prices (lines 189-242): deduplicate the ISIN column, resolve
every distinct ISIN, write the Current Price column back to every row, and
compute Current Value as Balance times Current Price with the Rate column
filling unresolved prices (line 240). -/
def get_current_prices (env : Env) (df : List Row) : List Event × List OutRow :=
  let uniq := uniqueIsins (df.map Row.isin)
  let res := resolveAllAux env 0 uniq
  let out := df.map fun r =>
    let p := lookupResult res.2 r.isin
    { isin := r.isin, balance := r.balance, rate := r.rate,
      currentPrice := p,
      currentValue := r.balance * (match p with | some v => v | none => r.rate) }
  (res.1, out)

/-- Recogniser for search call events. -/
def isSearchCall : Event → Bool
  | Event.searchCall _ => true
  | _ => false

/-- Number of HTTP GETs issued against the search endpoint in a log. -/
def countSearch (evs : List Event) : Nat :=
  evs.countP isSearchCall

/-- The ticker symbols whose price was fetched, in order. -/
def priceCallsOf (evs : List Event) : List String :=
  evs.filterMap fun e =>
    match e with
    | Event.priceCall s => some s
    | _ => none

/-- The sleep durations of a log, in order. -/
def sleepsOf (evs : List Event) : List Nat :=
  evs.filterMap fun e =>
    match e with
    | Event.sleep d => some d
    | _ => none

/-- The quote symbols the BSE fallback loop considers: exchange BSE and
symbol ending in .BO, in search-result order. -/
def bseSyms (quotes : List Quote) : List String :=
  (quotes.filter fun q => q.exchange == "BSE" && strEndsWith q.symbol ".BO").map
    Quote.symbol

/-- The first truthy price among a candidate list, scanning in order. -/
def firstPrice (env : Env) : List String → Option Int
  | [] => none
  | s :: ss =>
    match env.price s with
    | PriceOutcome.val p => if truthy p then p else firstPrice env ss
    | PriceOutcome.exc => firstPrice env ss

/-- The prefix of a candidate list actually fetched when scanning for the
first truthy price: every candidate up to and including the first that
succeeds or raises. -/
def scannedBse (env : Env) : List String → List String
  | [] => []
  | s :: ss =>
    match env.price s with
    | PriceOutcome.val p => if truthy p then [s] else s :: scannedBse env ss
    | PriceOutcome.exc => [s]

/-- An environment in which no attempt is ever rate limited and no call
raises: every search returns a response with a status other than 429 and
every price read returns a value. -/
def NoRetryEnv (env : Env) : Prop :=
  (∀ i n, ∀ qs, env.search i n ≠ SearchOutcome.resp 429 qs ∧
    env.search i n ≠ SearchOutcome.exc) ∧
  (∀ s, env.price s ≠ PriceOutcome.exc)

/-- Test environment: the search endpoint answers 429 on every attempt. -/
def env429 : Env :=
  { search := fun _ _ => SearchOutcome.resp 429 [],
    price := fun _ => PriceOutcome.val none }

/-- Test environment: one NSE candidate whose price reads as -5. -/
def envNeg : Env :=
  { search := fun _ _ => SearchOutcome.resp 200 [⟨"NSI", "T.NS"⟩],
    price := fun _ => PriceOutcome.val (some (-5)) }

/-- Test environment: one NSE candidate whose price reads as 10. -/
def envOk : Env :=
  { search := fun _ _ => SearchOutcome.resp 200 [⟨"NSI", "T.NS"⟩],
    price := fun _ => PriceOutcome.val (some 10) }

/-- Test environment: the search succeeds with an empty quotes list. -/
def envEmpty : Env :=
  { search := fun _ _ => SearchOutcome.resp 200 [],
    price := fun _ => PriceOutcome.val (some 10) }

/-- Test environment: a BSE candidate listed before an NSE candidate. -/
def envPref : Env :=
  { search := fun _ _ => SearchOutcome.resp 200 [⟨"BSE", "B.BO"⟩, ⟨"NSI", "N.NS"⟩],
    price := fun _ => PriceOutcome.val (some 10) }

/-- Test environment: the NSE candidate has no price, the second BSE
candidate has one. -/
def envBse : Env :=
  { search := fun _ _ =>
      SearchOutcome.resp 200 [⟨"NSI", "N.NS"⟩, ⟨"BSE", "B1.BO"⟩, ⟨"BSE", "B2.BO"⟩],
    price := fun s =>
      if s == "B2.BO" then PriceOutcome.val (some 7) else PriceOutcome.val none }

/-! Event algebra: how the counters act on nil and cons. -/

theorem countSearch_nil : countSearch [] = 0 := rfl

theorem countSearch_searchCall_cons (i : String) (l : List Event) :
    countSearch (Event.searchCall i :: l) = countSearch l + 1 := by
  simp [countSearch, List.countP_cons, isSearchCall]

theorem countSearch_priceCall_cons (s : String) (l : List Event) :
    countSearch (Event.priceCall s :: l) = countSearch l := by
  simp [countSearch, List.countP_cons, isSearchCall]

theorem countSearch_sleep_cons (d : Nat) (l : List Event) :
    countSearch (Event.sleep d :: l) = countSearch l := by
  simp [countSearch, List.countP_cons, isSearchCall]

theorem countSearch_warn_cons (w : Warning) (l : List Event) :
    countSearch (Event.warn w :: l) = countSearch l := by
  simp [countSearch, List.countP_cons, isSearchCall]

theorem sleepsOf_nil : sleepsOf [] = [] := rfl

theorem sleepsOf_searchCall_cons (i : String) (l : List Event) :
    sleepsOf (Event.searchCall i :: l) = sleepsOf l := by
  simp [sleepsOf, List.filterMap_cons]

theorem sleepsOf_priceCall_cons (s : String) (l : List Event) :
    sleepsOf (Event.priceCall s :: l) = sleepsOf l := by
  simp [sleepsOf, List.filterMap_cons]

theorem sleepsOf_sleep_cons (d : Nat) (l : List Event) :
    sleepsOf (Event.sleep d :: l) = d :: sleepsOf l := by
  simp [sleepsOf, List.filterMap_cons]

theorem sleepsOf_warn_cons (w : Warning) (l : List Event) :
    sleepsOf (Event.warn w :: l) = sleepsOf l := by
  simp [sleepsOf, List.filterMap_cons]

theorem priceCallsOf_nil : priceCallsOf [] = [] := rfl

theorem priceCallsOf_searchCall_cons (i : String) (l : List Event) :
    priceCallsOf (Event.searchCall i :: l) = priceCallsOf l := by
  simp [priceCallsOf, List.filterMap_cons]

theorem priceCallsOf_priceCall_cons (s : String) (l : List Event) :
    priceCallsOf (Event.priceCall s :: l) = s :: priceCallsOf l := by
  simp [priceCallsOf, List.filterMap_cons]

theorem priceCallsOf_sleep_cons (d : Nat) (l : List Event) :
    priceCallsOf (Event.sleep d :: l) = priceCallsOf l := by
  simp [priceCallsOf, List.filterMap_cons]

theorem priceCallsOf_warn_cons (w : Warning) (l : List Event) :
    priceCallsOf (Event.warn w :: l) = priceCallsOf l := by
  simp [priceCallsOf, List.filterMap_cons]

/-! Helper lemmas about the event counters. -/

theorem countSearch_append (l1 l2 : List Event) :
    countSearch (l1 ++ l2) = countSearch l1 + countSearch l2 := by
  simp [countSearch, List.countP_append]

theorem sleepsOf_append (l1 l2 : List Event) :
    sleepsOf (l1 ++ l2) = sleepsOf l1 ++ sleepsOf l2 := by
  simp [sleepsOf, List.filterMap_append]

theorem priceCallsOf_append (l1 l2 : List Event) :
    priceCallsOf (l1 ++ l2) = priceCallsOf l1 ++ priceCallsOf l2 := by
  simp [priceCallsOf, List.filterMap_append]

/-! Helper lemmas about backoff. -/

theorem backoff_lt {a m : Nat} (d : Nat) (w : Warning) (h : a < m - 1) :
    backoff a m d w = ([Event.sleep (d * (a + 1))], Control.next) := by
  simp [backoff, h]

theorem backoff_ge {a m : Nat} (d : Nat) (w : Warning) (h : ¬ a < m - 1) :
    backoff a m d w = ([Event.warn w], Control.done none) := by
  simp [backoff, h]

theorem backoff_countSearch (a m d : Nat) (w : Warning) :
    countSearch (backoff a m d w).1 = 0 := by
  unfold backoff
  split <;> simp [countSearch, isSearchCall]

theorem backoff_sleeps (a m d : Nat) (w : Warning) :
    sleepsOf (backoff a m d w).1 =
      (if (backoff a m d w).2 = Control.next then [d * (a + 1)] else []) := by
  unfold backoff
  split <;> simp [sleepsOf]

theorem backoff_priceCalls (a m d : Nat) (w : Warning) :
    priceCallsOf (backoff a m d w).1 = [] := by
  unfold backoff
  split <;> simp [priceCallsOf]

theorem backoff_done {a m d : Nat} {w : Warning} {r : Option Int}
    (h : (backoff a m d w).2 = Control.done r) : r = none := by
  unfold backoff at h
  split at h
  · exact absurd h (by simp)
  · simpa using h.symm

/-! Helper lemmas about the BSE fallback loop. -/

theorem bseLoop_countSearch (env : Env) (qs : List Quote) :
    countSearch (bseLoop env qs).1 = 0 := by
  induction qs with
  | nil => simp [bseLoop, countSearch]
  | cons q qs ih =>
    by_cases hq : (q.exchange == "BSE" && strEndsWith q.symbol ".BO") = true
    · simp only [bseLoop, hq, if_true]
      cases hp : env.price q.symbol with
      | exc => simp [countSearch, isSearchCall]
      | val p =>
        by_cases ht : truthy p = true
        · simp [ht, countSearch, isSearchCall]
        · simp only [ht, if_false, Bool.false_eq_true]
          simp [countSearch, List.countP_cons, isSearchCall]
          simpa [countSearch] using ih
    · simpa [bseLoop, hq] using ih

theorem bseLoop_sleeps (env : Env) (qs : List Quote) :
    sleepsOf (bseLoop env qs).1 = [] := by
  induction qs with
  | nil => simp [bseLoop, sleepsOf]
  | cons q qs ih =>
    by_cases hq : (q.exchange == "BSE" && strEndsWith q.symbol ".BO") = true
    · simp only [bseLoop, hq, if_true]
      cases hp : env.price q.symbol with
      | exc => simp [sleepsOf]
      | val p =>
        by_cases ht : truthy p = true
        · simp [ht, sleepsOf]
        · simp only [ht, if_false, Bool.false_eq_true]
          simp [sleepsOf, List.filterMap_cons]
          simpa [sleepsOf] using ih
    · simpa [bseLoop, hq] using ih

theorem bseLoop_ok_some {env : Env} {qs : List Quote} {v : Int}
    (h : (bseLoop env qs).2 = Except.ok (some v)) :
    v ≠ 0 ∧ ∃ s, env.price s = PriceOutcome.val (some v) := by
  induction qs with
  | nil => simp [bseLoop] at h
  | cons q qs ih =>
    by_cases hq : (q.exchange == "BSE" && strEndsWith q.symbol ".BO") = true
    · simp only [bseLoop, hq, if_true] at h
      cases hp : env.price q.symbol with
      | exc => rw [hp] at h; simp at h
      | val p =>
        simp only [hp] at h
        by_cases ht : truthy p = true
        · rw [if_pos ht] at h
          have hpv : p = some v := by simpa using h
          subst hpv
          refine ⟨?_, q.symbol, hp⟩
          simpa [truthy] using ht
        · rw [if_neg ht] at h
          exact ih h
    · rw [bseLoop, if_neg hq] at h
      exact ih h

theorem bseLoop_spec {env : Env} (qs : List Quote)
    (h : ∀ s ∈ bseSyms qs, env.price s ≠ PriceOutcome.exc) :
    (bseLoop env qs).2 = Except.ok (firstPrice env (bseSyms qs)) ∧
    priceCallsOf (bseLoop env qs).1 = scannedBse env (bseSyms qs) := by
  induction qs with
  | nil => simp [bseLoop, bseSyms, firstPrice, scannedBse, priceCallsOf]
  | cons q qs ih =>
    by_cases hq : (q.exchange == "BSE" && strEndsWith q.symbol ".BO") = true
    · have hsyms : bseSyms (q :: qs) = q.symbol :: bseSyms qs := by
        simp [bseSyms, List.filter_cons, hq]
      have hmem : env.price q.symbol ≠ PriceOutcome.exc := by
        apply h
        rw [hsyms]
        exact List.mem_cons_self _ _
      cases hp : env.price q.symbol with
      | exc => exact absurd hp hmem
      | val p =>
        have ih2 := ih (fun s hs => h s (by rw [hsyms]; exact List.mem_cons_of_mem _ hs))
        by_cases ht : truthy p = true
        · constructor
          · simp only [bseLoop, hq, if_true, hp, ht, if_pos]
            rw [hsyms]
            simp [firstPrice, hp, ht]
          · simp only [bseLoop, hq, if_true, hp, ht, if_pos]
            rw [hsyms]
            simp [scannedBse, hp, ht, priceCallsOf]
        · constructor
          · simp only [bseLoop, hq, if_true, hp, ht, if_neg, Bool.false_eq_true,
              not_false_eq_true]
            rw [hsyms]
            simp only [firstPrice, hp, ht, if_neg, Bool.false_eq_true, not_false_eq_true]
            exact ih2.1
          · simp only [bseLoop, hq, if_true, hp, ht, if_neg, Bool.false_eq_true,
              not_false_eq_true]
            rw [hsyms]
            simp only [scannedBse, hp, ht, if_neg, Bool.false_eq_true, not_false_eq_true]
            simp only [priceCallsOf, List.filterMap_cons]
            rw [← ih2.2]
            simp [priceCallsOf]
    · have hsyms : bseSyms (q :: qs) = bseSyms qs := by
        simp [bseSyms, List.filter_cons, hq]
      rw [bseLoop, if_neg hq, hsyms]
      exact ih (fun s hs => h s (by rw [hsyms]; exact hs))

/-! Helper lemmas about the phases of one attempt. -/

theorem bsePhase_countSearch (env : Env) (isin : String) (a m d : Nat)
    (qs : List Quote) : countSearch (bsePhase env isin a m d qs).1 = 0 := by
  unfold bsePhase
  cases hb : (bseLoop env qs).2 with
  | ok r =>
    cases r with
    | some v => simpa [hb] using bseLoop_countSearch env qs
    | none =>
      simp [hb, countSearch_append, bseLoop_countSearch, countSearch_warn_cons,
        countSearch_nil]
  | error e =>
    simp [hb, countSearch_append, bseLoop_countSearch, backoff_countSearch]

theorem bsePhase_sleeps (env : Env) (isin : String) (a m d : Nat)
    (qs : List Quote) :
    sleepsOf (bsePhase env isin a m d qs).1 =
      (if (bsePhase env isin a m d qs).2 = Control.next then [d * (a + 1)]
       else []) := by
  unfold bsePhase
  cases hb : (bseLoop env qs).2 with
  | ok r =>
    cases r with
    | some v => simp [hb, bseLoop_sleeps]
    | none =>
      simp [hb, sleepsOf_append, bseLoop_sleeps, sleepsOf_warn_cons, sleepsOf_nil]
  | error e =>
    simp [hb, sleepsOf_append, bseLoop_sleeps, backoff_sleeps]

theorem bsePhase_done_some {env : Env} {isin : String} {a m d : Nat}
    {qs : List Quote} {v : Int}
    (h : (bsePhase env isin a m d qs).2 = Control.done (some v)) :
    v ≠ 0 ∧ ∃ s, env.price s = PriceOutcome.val (some v) := by
  unfold bsePhase at h
  cases hb : (bseLoop env qs).2 with
  | ok r =>
    cases r with
    | some w =>
      simp only [hb] at h
      have hwv : w = v := by simpa using h
      exact bseLoop_ok_some (hwv ▸ hb)
    | none => simp [hb] at h
  | error e =>
    simp only [hb] at h
    have := backoff_done h
    simp at this

theorem bsePhase_done_of_noexc {env : Env} (isin : String) (a m d : Nat)
    (qs : List Quote) (h : ∀ s, env.price s ≠ PriceOutcome.exc) :
    ∃ r, (bsePhase env isin a m d qs).2 = Control.done r := by
  unfold bsePhase
  have hb := (bseLoop_spec qs (fun s _ => h s)).1
  cases hp : firstPrice env (bseSyms qs) with
  | some v => exact ⟨some v, by simp [hb, hp]⟩
  | none => exact ⟨none, by simp [hb, hp]⟩

theorem quotesPhase_countSearch (env : Env) (isin : String) (a m d : Nat)
    (qs : List Quote) : countSearch (quotesPhase env isin a m d qs).1 = 0 := by
  unfold quotesPhase
  cases hn : findNse qs with
  | none => simpa using bsePhase_countSearch env isin a m d qs
  | some t =>
    cases hp : env.price t with
    | exc => simp [hp, countSearch_priceCall_cons, backoff_countSearch]
    | val p =>
      by_cases ht : truthy p = true
      · simp [hp, ht, countSearch_priceCall_cons, countSearch_nil]
      · simp [hp, ht, countSearch_priceCall_cons, bsePhase_countSearch]

theorem quotesPhase_sleeps (env : Env) (isin : String) (a m d : Nat)
    (qs : List Quote) :
    sleepsOf (quotesPhase env isin a m d qs).1 =
      (if (quotesPhase env isin a m d qs).2 = Control.next then [d * (a + 1)]
       else []) := by
  unfold quotesPhase
  cases hn : findNse qs with
  | none => simpa using bsePhase_sleeps env isin a m d qs
  | some t =>
    cases hp : env.price t with
    | exc => simp [hp, sleepsOf_priceCall_cons, backoff_sleeps]
    | val p =>
      by_cases ht : truthy p = true
      · simp [hp, ht, sleepsOf_priceCall_cons, sleepsOf_nil]
      · simp [hp, ht, sleepsOf_priceCall_cons, bsePhase_sleeps]

theorem quotesPhase_done_some {env : Env} {isin : String} {a m d : Nat}
    {qs : List Quote} {v : Int}
    (h : (quotesPhase env isin a m d qs).2 = Control.done (some v)) :
    v ≠ 0 ∧ ∃ s, env.price s = PriceOutcome.val (some v) := by
  unfold quotesPhase at h
  cases hn : findNse qs with
  | none =>
    simp only [hn] at h
    exact bsePhase_done_some h
  | some t =>
    simp only [hn] at h
    cases hp : env.price t with
    | exc =>
      simp only [hp] at h
      have := backoff_done h
      simp at this
    | val p =>
      simp only [hp] at h
      by_cases ht : truthy p = true
      · rw [if_pos ht] at h
        have hpv : p = some v := by simpa using h
        subst hpv
        exact ⟨by simpa [truthy] using ht, t, hp⟩
      · rw [if_neg ht] at h
        exact bsePhase_done_some h

theorem quotesPhase_done_of_noexc {env : Env} (isin : String) (a m d : Nat)
    (qs : List Quote) (h : ∀ s, env.price s ≠ PriceOutcome.exc) :
    ∃ r, (quotesPhase env isin a m d qs).2 = Control.done r := by
  unfold quotesPhase
  cases hn : findNse qs with
  | none => simpa using bsePhase_done_of_noexc isin a m d qs h
  | some t =>
    cases hp : env.price t with
    | exc => exact absurd hp (h t)
    | val p =>
      by_cases ht : truthy p = true
      · exact ⟨p, by simp [hp, ht]⟩
      · simpa [hp, ht] using bsePhase_done_of_noexc isin a m d qs h

theorem quotesPhase_priceCalls_head {env : Env} {isin : String} {a m d : Nat}
    {qs : List Quote} {t : String} (h : findNse qs = some t) :
    ∃ rest, priceCallsOf (quotesPhase env isin a m d qs).1 = t :: rest := by
  unfold quotesPhase
  simp only [h]
  cases hp : env.price t with
  | exc =>
    exact ⟨priceCallsOf (backoff a m d (Warning.fetchError isin)).1,
      by simp [hp, priceCallsOf_priceCall_cons]⟩
  | val p =>
    by_cases ht : truthy p = true
    · exact ⟨[], by simp [hp, ht, priceCallsOf_priceCall_cons, priceCallsOf_nil]⟩
    · exact ⟨priceCallsOf (bsePhase env isin a m d qs).1,
        by simp [hp, ht, priceCallsOf_priceCall_cons]⟩

/-! Helper lemmas about one whole attempt. -/

theorem attemptStep_countSearch (env : Env) (isin : String) (a m d : Nat) :
    countSearch (attemptStep env isin a m d).1 = 1 := by
  unfold attemptStep
  cases hs : env.search isin a with
  | exc => simp [countSearch_searchCall_cons, backoff_countSearch]
  | resp status qs =>
    by_cases h429 : (status == 429) = true
    · simp [h429, countSearch_searchCall_cons, backoff_countSearch]
    · by_cases h200 : (status != 200) = true
      · simp [h429, h200, countSearch_searchCall_cons, countSearch_warn_cons,
          countSearch_nil]
      · by_cases hq : qs.isEmpty = true
        · simp [h429, h200, hq, countSearch_searchCall_cons, countSearch_warn_cons,
            countSearch_nil]
        · simp [h429, h200, hq, countSearch_searchCall_cons, quotesPhase_countSearch]

theorem attemptStep_sleeps (env : Env) (isin : String) (a m d : Nat) :
    sleepsOf (attemptStep env isin a m d).1 =
      (if (attemptStep env isin a m d).2 = Control.next then [d * (a + 1)]
       else []) := by
  unfold attemptStep
  cases hs : env.search isin a with
  | exc => simp [sleepsOf_searchCall_cons, backoff_sleeps]
  | resp status qs =>
    by_cases h429 : (status == 429) = true
    · simp [h429, sleepsOf_searchCall_cons, backoff_sleeps]
    · by_cases h200 : (status != 200) = true
      · simp [h429, h200, sleepsOf_searchCall_cons, sleepsOf_warn_cons, sleepsOf_nil]
      · by_cases hq : qs.isEmpty = true
        · simp [h429, h200, hq, sleepsOf_searchCall_cons, sleepsOf_warn_cons,
            sleepsOf_nil]
        · simp [h429, h200, hq, sleepsOf_searchCall_cons, quotesPhase_sleeps]

theorem bsePhase_not_next {env : Env} {isin : String} {a m d : Nat}
    {qs : List Quote} (hlast : ¬ a < m - 1) :
    (bsePhase env isin a m d qs).2 ≠ Control.next := by
  unfold bsePhase
  cases hb : (bseLoop env qs).2 with
  | ok r =>
    cases r with
    | some v => simp [hb]
    | none => simp [hb]
  | error e => simp [hb, backoff_ge d (Warning.fetchError isin) hlast]

theorem quotesPhase_not_next {env : Env} {isin : String} {a m d : Nat}
    {qs : List Quote} (hlast : ¬ a < m - 1) :
    (quotesPhase env isin a m d qs).2 ≠ Control.next := by
  unfold quotesPhase
  cases hn : findNse qs with
  | none => simpa using bsePhase_not_next hlast
  | some t =>
    cases hp : env.price t with
    | exc => simp [hp, backoff_ge d (Warning.fetchError isin) hlast]
    | val p =>
      by_cases ht : truthy p = true
      · simp [hp, ht]
      · simpa [hp, ht] using bsePhase_not_next hlast

theorem attemptStep_not_next {env : Env} {isin : String} {a m d : Nat}
    (hlast : ¬ a < m - 1) : (attemptStep env isin a m d).2 ≠ Control.next := by
  unfold attemptStep
  cases hs : env.search isin a with
  | exc => simp [backoff_ge d (Warning.fetchError isin) hlast]
  | resp status qs =>
    by_cases h429 : (status == 429) = true
    · simp [h429, backoff_ge d (Warning.rateLimited isin) hlast]
    · by_cases h200 : (status != 200) = true
      · simp [h429, h200]
      · by_cases hq : qs.isEmpty = true
        · simp [h429, h200, hq]
        · simpa [h429, h200, hq] using quotesPhase_not_next hlast

theorem attemptStep_done_some {env : Env} {isin : String} {a m d : Nat} {v : Int}
    (h : (attemptStep env isin a m d).2 = Control.done (some v)) :
    v ≠ 0 ∧ ∃ s, env.price s = PriceOutcome.val (some v) := by
  unfold attemptStep at h
  cases hs : env.search isin a with
  | exc =>
    simp only [hs] at h
    have := backoff_done h
    simp at this
  | resp status qs =>
    simp only [hs] at h
    by_cases h429 : (status == 429) = true
    · rw [if_pos h429] at h
      have := backoff_done h
      simp at this
    · rw [if_neg h429] at h
      by_cases h200 : (status != 200) = true
      · rw [if_pos h200] at h
        simp at h
      · rw [if_neg h200] at h
        by_cases hq : qs.isEmpty = true
        · rw [if_pos hq] at h
          simp at h
        · rw [if_neg hq] at h
          exact quotesPhase_done_some h

theorem attemptStep_done_of_noRetry {env : Env} (h : NoRetryEnv env)
    (isin : String) (a m d : Nat) :
    ∃ r, (attemptStep env isin a m d).2 = Control.done r := by
  obtain ⟨hsearch, hprice⟩ := h
  unfold attemptStep
  cases hs : env.search isin a with
  | exc => exact absurd hs (hsearch isin a []).2
  | resp status qs =>
    have h429 : ¬ (status == 429) = true := by
      intro hc
      have hs429 : status = 429 := by simpa using hc
      subst hs429
      exact (hsearch isin a qs).1 hs
    by_cases h200 : (status != 200) = true
    · exact ⟨none, by simp [h429, h200]⟩
    · by_cases hq : qs.isEmpty = true
      · exact ⟨none, by simp [h429, h200, hq]⟩
      · obtain ⟨r, hr⟩ := quotesPhase_done_of_noexc isin a m d qs hprice
        exact ⟨r, by simp [h429, h200, hq, hr]⟩

theorem attemptStep_429 {env : Env} {isin : String} {a : Nat} {qs : List Quote}
    (m d : Nat) (h : env.search isin a = SearchOutcome.resp 429 qs) :
    attemptStep env isin a m d =
      (Event.searchCall isin :: (backoff a m d (Warning.rateLimited isin)).1,
        (backoff a m d (Warning.rateLimited isin)).2) := by
  unfold attemptStep
  rw [h]
  simp

/-! Helper lemmas about the retry loop. -/

theorem fetchLoop_succ (env : Env) (isin : String) (m d a r : Nat) :
    fetchLoop env isin m d a (r + 1) =
      (match (attemptStep env isin a m d).2 with
        | Control.done res => ((attemptStep env isin a m d).1, res)
        | Control.next =>
          ((attemptStep env isin a m d).1 ++ (fetchLoop env isin m d (a + 1) r).1,
            (fetchLoop env isin m d (a + 1) r).2)) := rfl

theorem fetchLoop_succ_done {env : Env} {isin : String} {m d a : Nat}
    {res : Option Int} (r : Nat)
    (h : (attemptStep env isin a m d).2 = Control.done res) :
    fetchLoop env isin m d a (r + 1) = ((attemptStep env isin a m d).1, res) := by
  rw [fetchLoop_succ, h]

theorem fetchLoop_succ_next {env : Env} {isin : String} {m d a : Nat} (r : Nat)
    (h : (attemptStep env isin a m d).2 = Control.next) :
    fetchLoop env isin m d a (r + 1) =
      ((attemptStep env isin a m d).1 ++ (fetchLoop env isin m d (a + 1) r).1,
        (fetchLoop env isin m d (a + 1) r).2) := by
  rw [fetchLoop_succ, h]

theorem fetchLoop_some {env : Env} {isin : String} {m d : Nat} :
    ∀ (r a : Nat) {v : Int}, (fetchLoop env isin m d a r).2 = some v →
      v ≠ 0 ∧ ∃ s, env.price s = PriceOutcome.val (some v) := by
  intro r
  induction r with
  | zero =>
    intro a v h
    simp [fetchLoop] at h
  | succ r ih =>
    intro a v h
    cases hc : (attemptStep env isin a m d).2 with
    | done res =>
      rw [fetchLoop_succ_done r hc] at h
      have hres : res = some v := h
      exact attemptStep_done_some (hres ▸ hc)
    | next =>
      rw [fetchLoop_succ_next r hc] at h
      exact ih (a + 1) h

theorem fetchLoop_countSearch_le {env : Env} {isin : String} {m d : Nat} :
    ∀ (r a : Nat), countSearch (fetchLoop env isin m d a r).1 ≤ r := by
  intro r
  induction r with
  | zero => intro a; simp [fetchLoop, countSearch_nil]
  | succ r ih =>
    intro a
    cases hc : (attemptStep env isin a m d).2 with
    | done res =>
      rw [fetchLoop_succ_done r hc]
      simp [attemptStep_countSearch]
    | next =>
      rw [fetchLoop_succ_next r hc]
      have := ih (a + 1)
      simp only [countSearch_append, attemptStep_countSearch]
      omega

theorem fetchLoop_noRetry_count {env : Env} (h : NoRetryEnv env)
    (isin : String) (m d a r : Nat) :
    countSearch (fetchLoop env isin m d a (r + 1)).1 = 1 := by
  obtain ⟨res, hc⟩ := attemptStep_done_of_noRetry h isin a m d
  rw [fetchLoop_succ_done r hc]
  exact attemptStep_countSearch env isin a m d

theorem fetchLoop_sleeps_getD {env : Env} {isin : String} {m d : Nat} :
    ∀ (r a n : Nat), n < (sleepsOf (fetchLoop env isin m d a r).1).length →
      (sleepsOf (fetchLoop env isin m d a r).1).getD n 0 = d * (a + n + 1) := by
  intro r
  induction r with
  | zero =>
    intro a n h
    simp [fetchLoop, sleepsOf_nil] at h
  | succ r ih =>
    intro a n h
    cases hc : (attemptStep env isin a m d).2 with
    | done res =>
      rw [fetchLoop_succ_done r hc] at h ⊢
      have hsl : sleepsOf (attemptStep env isin a m d).1 = [] := by
        rw [attemptStep_sleeps, hc]
        simp
      rw [hsl] at h
      simp at h
    | next =>
      rw [fetchLoop_succ_next r hc] at h ⊢
      have hsl : sleepsOf (attemptStep env isin a m d).1 = [d * (a + 1)] := by
        rw [attemptStep_sleeps, hc]
        simp
      rw [sleepsOf_append, hsl] at h ⊢
      cases n with
      | zero => simp
      | succ n =>
        simp only [List.cons_append, List.nil_append, List.length_cons,
          List.getD_cons_succ] at h ⊢
        have := ih (a + 1) n (by omega)
        rw [this]
        ring_nf

theorem fetchLoop_sleeps_len {env : Env} {isin : String} {m d : Nat} :
    ∀ (r a : Nat), (sleepsOf (fetchLoop env isin m d a r).1).length ≤ m - 1 - a := by
  intro r
  induction r with
  | zero => intro a; simp [fetchLoop, sleepsOf_nil]
  | succ r ih =>
    intro a
    cases hc : (attemptStep env isin a m d).2 with
    | done res =>
      rw [fetchLoop_succ_done r hc]
      have hsl : sleepsOf (attemptStep env isin a m d).1 = [] := by
        rw [attemptStep_sleeps, hc]
        simp
      simp [hsl]
    | next =>
      have ha : a < m - 1 := by
        by_contra hcon
        exact attemptStep_not_next hcon hc
      rw [fetchLoop_succ_next r hc]
      have hsl : sleepsOf (attemptStep env isin a m d).1 = [d * (a + 1)] := by
        rw [attemptStep_sleeps, hc]
        simp
      rw [sleepsOf_append, hsl]
      have := ih (a + 1)
      simp only [List.cons_append, List.nil_append, List.length_cons]
      omega

theorem fetchLoop_429 {env : Env} {isin : String}
    (h : ∀ n, ∃ qs, env.search isin n = SearchOutcome.resp 429 qs) (m d : Nat) :
    ∀ (r a : Nat), a + r = m → 1 ≤ r →
      countSearch (fetchLoop env isin m d a r).1 = r ∧
      (sleepsOf (fetchLoop env isin m d a r).1).length = r - 1 ∧
      (fetchLoop env isin m d a r).2 = none ∧
      Event.warn (Warning.rateLimited isin) ∈ (fetchLoop env isin m d a r).1 := by
  intro r
  induction r with
  | zero => intro a _ h1; omega
  | succ r ih =>
    intro a hsum _
    obtain ⟨qs, hq⟩ := h a
    have hstep := attemptStep_429 m d hq
    by_cases hr : r = 0
    · subst hr
      have hback : backoff a m d (Warning.rateLimited isin) =
          ([Event.warn (Warning.rateLimited isin)], Control.done none) :=
        backoff_ge d _ (by omega)
      have hc : (attemptStep env isin a m d).2 = Control.done none := by
        rw [hstep, hback]
      have hev : (attemptStep env isin a m d).1 =
          [Event.searchCall isin, Event.warn (Warning.rateLimited isin)] := by
        rw [hstep, hback]
      rw [fetchLoop_succ_done 0 hc, hev]
      refine ⟨?_, ?_, rfl, ?_⟩
      · simp [countSearch_searchCall_cons, countSearch_warn_cons, countSearch_nil]
      · simp [sleepsOf_searchCall_cons, sleepsOf_warn_cons, sleepsOf_nil]
      · simp
    · have hback : backoff a m d (Warning.rateLimited isin) =
          ([Event.sleep (d * (a + 1))], Control.next) :=
        backoff_lt d _ (by omega)
      have hc : (attemptStep env isin a m d).2 = Control.next := by
        rw [hstep, hback]
      have hev : (attemptStep env isin a m d).1 =
          [Event.searchCall isin, Event.sleep (d * (a + 1))] := by
        rw [hstep, hback]
      rw [fetchLoop_succ_next r hc, hev]
      obtain ⟨ihc, ihs, ihr, ihm⟩ := ih (a + 1) (by omega) (by omega)
      refine ⟨?_, ?_, ihr, ?_⟩
      · rw [countSearch_append, ihc]
        simp [countSearch_searchCall_cons, countSearch_sleep_cons, countSearch_nil]
        omega
      · rw [sleepsOf_append]
        simp only [sleepsOf_searchCall_cons, sleepsOf_sleep_cons, sleepsOf_nil,
          List.cons_append, List.nil_append, List.length_cons]
        omega
      · simp only [List.cons_append, List.mem_cons]
        right
        right
        exact List.mem_append_right _ ihm

/-! Helper lemmas about the batch resolution. -/

theorem resolveAllAux_cons (env : Env) (c : Nat) (i : String) (is : List String) :
    resolveAllAux env c (i :: is) =
      ((fetch_current_price env i).1 ++
        (if ((c + 1) % 5 == 0) = true then [Event.sleep 1] else []) ++
        (resolveAllAux env (c + 1) is).1,
        (i, (fetch_current_price env i).2) :: (resolveAllAux env (c + 1) is).2) := rfl

theorem throttle_countSearch (c : Nat) :
    countSearch (if ((c + 1) % 5 == 0) = true then [Event.sleep 1] else []) = 0 := by
  split <;> simp [countSearch_sleep_cons, countSearch_nil]

theorem resolveAllAux_keys (env : Env) : ∀ (l : List String) (c : Nat),
    (resolveAllAux env c l).2.map Prod.fst = l := by
  intro l
  induction l with
  | nil => intro c; rfl
  | cons i is ih =>
    intro c
    rw [resolveAllAux_cons]
    simp [ih (c + 1)]

theorem fetch_countSearch_noRetry {env : Env} (h : NoRetryEnv env) (i : String) :
    countSearch (fetch_current_price env i).1 = 1 :=
  fetchLoop_noRetry_count h i 3 2 0 2

theorem fetch_countSearch_le (env : Env) (i : String) :
    countSearch (fetch_current_price env i).1 ≤ 3 :=
  @fetchLoop_countSearch_le env i 3 2 3 0

theorem resolveAllAux_count_noRetry {env : Env} (h : NoRetryEnv env) :
    ∀ (l : List String) (c : Nat),
      countSearch (resolveAllAux env c l).1 = l.length := by
  intro l
  induction l with
  | nil => intro c; simp [resolveAllAux, countSearch_nil]
  | cons i is ih =>
    intro c
    rw [resolveAllAux_cons]
    dsimp only
    rw [countSearch_append, countSearch_append, throttle_countSearch,
      fetch_countSearch_noRetry h, ih (c + 1)]
    simp only [List.length_cons]
    omega

theorem resolveAllAux_count_le (env : Env) :
    ∀ (l : List String) (c : Nat),
      countSearch (resolveAllAux env c l).1 ≤ 3 * l.length := by
  intro l
  induction l with
  | nil => intro c; simp [resolveAllAux, countSearch_nil]
  | cons i is ih =>
    intro c
    rw [resolveAllAux_cons]
    dsimp only
    rw [countSearch_append, countSearch_append, throttle_countSearch]
    have h1 := fetch_countSearch_le env i
    have h2 := ih (c + 1)
    simp only [List.length_cons]
    omega

/-! Helper lemmas about the ISIN deduplication. -/

theorem mem_uniqueAux : ∀ (l seen : List String) (x : String),
    x ∈ uniqueAux seen l ↔ x ∈ l ∧ x ∉ seen := by
  intro l
  induction l with
  | nil => intro seen x; simp [uniqueAux]
  | cons y l ih =>
    intro seen x
    by_cases hy : y ∈ seen
    · rw [uniqueAux, if_pos hy, ih]
      constructor
      · rintro ⟨hl, hs⟩
        exact ⟨List.mem_cons_of_mem _ hl, hs⟩
      · rintro ⟨hyl, hs⟩
        rcases List.mem_cons.mp hyl with h1 | h1
        · subst h1; exact absurd hy hs
        · exact ⟨h1, hs⟩
    · rw [uniqueAux, if_neg hy]
      constructor
      · intro hx
        rcases List.mem_cons.mp hx with h1 | h1
        · subst h1; exact ⟨List.mem_cons_self _ _, hy⟩
        · obtain ⟨hl, hs⟩ := (ih (y :: seen) x).mp h1
          have hxs : x ∉ seen := fun hc => hs (List.mem_cons_of_mem _ hc)
          exact ⟨List.mem_cons_of_mem _ hl, hxs⟩
      · rintro ⟨hyl, hs⟩
        rcases List.mem_cons.mp hyl with h1 | h1
        · subst h1; exact List.mem_cons_self _ _
        · by_cases hxy : x = y
          · subst hxy; exact List.mem_cons_self _ _
          · exact List.mem_cons_of_mem _
              ((ih (y :: seen) x).mpr ⟨h1, by simp [List.mem_cons, hxy, hs]⟩)

theorem nodup_uniqueAux : ∀ (l seen : List String), (uniqueAux seen l).Nodup := by
  intro l
  induction l with
  | nil => intro seen; simp [uniqueAux]
  | cons y l ih =>
    intro seen
    by_cases hy : y ∈ seen
    · simpa [uniqueAux, hy] using ih seen
    · rw [uniqueAux, if_neg hy, List.nodup_cons]
      exact ⟨fun hc => ((mem_uniqueAux l (y :: seen) y).mp hc).2
        (List.mem_cons_self _ _), ih (y :: seen)⟩

theorem mem_uniqueIsins (l : List String) (x : String) :
    x ∈ uniqueIsins l ↔ x ∈ l := by
  unfold uniqueIsins
  rw [mem_uniqueAux]
  simp

theorem nodup_uniqueIsins (l : List String) : (uniqueIsins l).Nodup :=
  nodup_uniqueAux l []

/-! Helper lemmas about get_current_prices. -/

theorem get_current_prices_events (env : Env) (df : List Row) :
    (get_current_prices env df).1 =
      (resolveAllAux env 0 (uniqueIsins (df.map Row.isin))).1 := rfl

theorem get_current_prices_rows (env : Env) (df : List Row) :
    (get_current_prices env df).2 = df.map (fun r =>
      let p := lookupResult
        (resolveAllAux env 0 (uniqueIsins (df.map Row.isin))).2 r.isin
      { isin := r.isin, balance := r.balance, rate := r.rate,
        currentPrice := p,
        currentValue :=
          r.balance * (match p with | some v => v | none => r.rate) }) := rfl

/-! The claims. -/

/-- C1: for every non-empty input batch, the resolution run of
get_current_prices produces a result for exactly the input identifiers: the
key list of the resolution results has the same members as the ISIN column,
has no duplicates, and every row of the output keeps its identifier with a
price column assigned. -/
theorem C1_resolution_covers_inputs (env : Env) (df : List Row) (h : df ≠ []) :
    (∀ i, i ∈ ((resolveAllAux env 0 (uniqueIsins (df.map Row.isin))).2.map
        Prod.fst) ↔ i ∈ df.map Row.isin) ∧
    ((resolveAllAux env 0 (uniqueIsins (df.map Row.isin))).2.map
        Prod.fst).Nodup ∧
    (get_current_prices env df).2.map OutRow.isin = df.map Row.isin := by
  refine ⟨?_, ?_, ?_⟩
  · intro i
    rw [resolveAllAux_keys, mem_uniqueIsins]
  · rw [resolveAllAux_keys]
    exact nodup_uniqueIsins _
  · rw [get_current_prices_rows, List.map_map]
    rfl

/-- Witness for C1 at a concrete one-row batch. -/
theorem C1_witness :
    ([(⟨"A", 2, 7⟩ : Row)] ≠ ([] : List Row)) ∧
    ((∀ i, i ∈ ((resolveAllAux envOk 0
        (uniqueIsins ([(⟨"A", 2, 7⟩ : Row)].map Row.isin))).2.map Prod.fst) ↔
        i ∈ [(⟨"A", 2, 7⟩ : Row)].map Row.isin) ∧
      ((resolveAllAux envOk 0
        (uniqueIsins ([(⟨"A", 2, 7⟩ : Row)].map Row.isin))).2.map
          Prod.fst).Nodup ∧
      (get_current_prices envOk [(⟨"A", 2, 7⟩ : Row)]).2.map OutRow.isin =
        [(⟨"A", 2, 7⟩ : Row)].map Row.isin) :=
  ⟨by decide, C1_resolution_covers_inputs envOk [⟨"A", 2, 7⟩] (by decide)⟩

/-- C2 counterexample: with one identifier whose every search attempt is
rate limited, the run issues 3 search calls against 1 distinct identifier,
so the search-call count neither equals the distinct count nor stays at
most once per identifier. -/
theorem C2_counterexample :
    countSearch (get_current_prices env429 [(⟨"A", 1, 1⟩ : Row)]).1 = 3 ∧
    (uniqueIsins ([(⟨"A", 1, 1⟩ : Row)].map Row.isin)).length = 1 ∧
    ¬ countSearch (get_current_prices env429 [(⟨"A", 1, 1⟩ : Row)]).1 ≤ 1 := by
  decide

/-- C2 amended: a resolution run issues at most max_retries search calls per
distinct identifier, and exactly one search call per distinct identifier
whenever no attempt is rate limited and no call raises. -/
theorem C2_search_call_bound (env : Env) (df : List Row) :
    countSearch (get_current_prices env df).1 ≤
      max_retries * (uniqueIsins (df.map Row.isin)).length ∧
    (NoRetryEnv env →
      countSearch (get_current_prices env df).1 =
        (uniqueIsins (df.map Row.isin)).length) := by
  constructor
  · rw [get_current_prices_events]
    simpa [max_retries] using
      resolveAllAux_count_le env (uniqueIsins (df.map Row.isin)) 0
  · intro h
    rw [get_current_prices_events]
    exact resolveAllAux_count_noRetry h _ 0

/-- Witness for C2 at a concrete batch with a duplicated identifier and a
well-behaved network. -/
theorem C2_witness :
    NoRetryEnv envOk ∧
    countSearch (get_current_prices envOk
        [(⟨"A", 2, 7⟩ : Row), ⟨"A", 3, 7⟩]).1 =
      (uniqueIsins ([(⟨"A", 2, 7⟩ : Row), ⟨"A", 3, 7⟩].map Row.isin)).length := by
  have hnr : NoRetryEnv envOk := by
    refine ⟨fun i n qs => ⟨?_, ?_⟩, fun s => ?_⟩ <;> simp [envOk]
  exact ⟨hnr, (C2_search_call_bound envOk [⟨"A", 2, 7⟩, ⟨"A", 3, 7⟩]).2 hnr⟩

/-- C3 counterexample: a lookup whose every attempt is rate limited makes
max_retries = 3 search attempts (2 retries), not max_retries + 1 = 4
attempts as the claim states. -/
theorem C3_counterexample :
    countSearch (fetch_current_price env429 "X").1 = max_retries ∧
    (sleepsOf (fetch_current_price env429 "X").1).length = max_retries - 1 ∧
    countSearch (fetch_current_price env429 "X").1 ≠ max_retries + 1 := by
  decide

/-- C3 amended: a lookup that always reports rate limited is retried
exactly max_retries - 1 times (max_retries attempts in total, with
max_retries - 1 backoff sleeps between them) and is then recorded as
unresolved with a rate-limited warning. -/
theorem C3_rate_limit_retry_bound (env : Env) (isin : String)
    (h : ∀ n, ∃ qs, env.search isin n = SearchOutcome.resp 429 qs) :
    countSearch (fetch_current_price env isin).1 = max_retries ∧
    (sleepsOf (fetch_current_price env isin).1).length = max_retries - 1 ∧
    (fetch_current_price env isin).2 = none ∧
    Event.warn (Warning.rateLimited isin) ∈ (fetch_current_price env isin).1 := by
  obtain ⟨h1, h2, h3, h4⟩ := fetchLoop_429 h 3 2 3 0 (by omega) (by omega)
  exact ⟨by simpa [max_retries] using h1, by simpa [max_retries] using h2,
    h3, h4⟩

/-- Witness for C3 at the concrete always-rate-limited environment. -/
theorem C3_witness :
    (∀ n, ∃ qs, env429.search "X" n = SearchOutcome.resp 429 qs) ∧
    (countSearch (fetch_current_price env429 "X").1 = max_retries ∧
      (sleepsOf (fetch_current_price env429 "X").1).length = max_retries - 1 ∧
      (fetch_current_price env429 "X").2 = none ∧
      Event.warn (Warning.rateLimited "X") ∈
        (fetch_current_price env429 "X").1) :=
  ⟨fun n => ⟨[], rfl⟩,
    C3_rate_limit_retry_bound env429 "X" (fun n => ⟨[], rfl⟩)⟩

/-- C4: in every lookup the backoff sleep before retry number n (counting
from 0) lasts retry_delay * 2 ^ n seconds: with the fixed max_retries = 3
at most two sleeps occur, of 2 and 4 seconds. -/
theorem C4_backoff_doubles (env : Env) (isin : String) (n : Nat)
    (h : n < (sleepsOf (fetch_current_price env isin).1).length) :
    (sleepsOf (fetch_current_price env isin).1).getD n 0 =
      retry_delay * 2 ^ n := by
  have hn2 : n < (sleepsOf (fetchLoop env isin 3 2 0 3).1).length := h
  have hlen := @fetchLoop_sleeps_len env isin 3 2 3 0
  have hval := @fetchLoop_sleeps_getD env isin 3 2 3 0 n hn2
  show (sleepsOf (fetchLoop env isin 3 2 0 3).1).getD n 0 = retry_delay * 2 ^ n
  rw [hval]
  have hn1 : n ≤ 1 := by omega
  interval_cases n
  · decide
  · decide

/-- Witness for C4: the second backoff sleep of the always-rate-limited run
lasts retry_delay * 2 seconds. -/
theorem C4_witness :
    1 < (sleepsOf (fetch_current_price env429 "X").1).length ∧
    (sleepsOf (fetch_current_price env429 "X").1).getD 1 0 =
      retry_delay * 2 ^ 1 :=
  ⟨by decide, C4_backoff_doubles env429 "X" 1 (by decide)⟩

/-- C5: an identifier whose search succeeds with an empty quotes list is
recorded as unresolved with the no-quotes warning after exactly one search
call, with zero price fetches and no retry. -/
theorem C5_no_candidates_short_circuit (env : Env) (isin : String)
    (h : env.search isin 0 = SearchOutcome.resp 200 []) :
    fetch_current_price env isin =
      ([Event.searchCall isin, Event.warn (Warning.noQuotes isin)], none) ∧
    countSearch (fetch_current_price env isin).1 = 1 ∧
    priceCallsOf (fetch_current_price env isin).1 = [] := by
  have hstep : attemptStep env isin 0 3 2 =
      ([Event.searchCall isin, Event.warn (Warning.noQuotes isin)],
        Control.done none) := by
    unfold attemptStep
    rw [h]
    simp
  have hc : (attemptStep env isin 0 3 2).2 = Control.done none := by rw [hstep]
  have hrun : fetch_current_price env isin =
      ((attemptStep env isin 0 3 2).1, none) := fetchLoop_succ_done 2 hc
  rw [hrun, hstep]
  refine ⟨rfl, ?_, ?_⟩
  · simp [countSearch_searchCall_cons, countSearch_warn_cons, countSearch_nil]
  · simp [priceCallsOf_searchCall_cons, priceCallsOf_warn_cons,
      priceCallsOf_nil]

/-- Witness for C5 at the concrete empty-quotes environment. -/
theorem C5_witness :
    envEmpty.search "X" 0 = SearchOutcome.resp 200 [] ∧
    (fetch_current_price envEmpty "X" =
        ([Event.searchCall "X", Event.warn (Warning.noQuotes "X")], none) ∧
      countSearch (fetch_current_price envEmpty "X").1 = 1 ∧
      priceCallsOf (fetch_current_price envEmpty "X").1 = []) :=
  ⟨rfl, C5_no_candidates_short_circuit envEmpty "X" rfl⟩

/-- C6: when the search returns a secondary-exchange candidate before a
primary-exchange candidate, the first price fetch of the run uses the
primary-exchange symbol. -/
theorem C6_prefers_primary_exchange (env : Env) (isin symA symB : String)
    (hA : strEndsWith symA ".NS" = true) (hB : strEndsWith symB ".BO" = true)
    (h : env.search isin 0 =
      SearchOutcome.resp 200 [⟨"BSE", symB⟩, ⟨"NSI", symA⟩]) :
    (priceCallsOf (fetch_current_price env isin).1).head? = some symA := by
  have e1 : (("BSE" : String) == "NSI") = false := by decide
  have e2 : (("NSI" : String) == "NSI") = true := by decide
  have hfind : findNse [(⟨"BSE", symB⟩ : Quote), ⟨"NSI", symA⟩] = some symA := by
    simp [findNse, e1, e2, hA]
  obtain ⟨rest, hqp⟩ :=
    @quotesPhase_priceCalls_head env isin 0 3 2 _ _ hfind
  have hstep1 : (attemptStep env isin 0 3 2).1 =
      Event.searchCall isin ::
        (quotesPhase env isin 0 3 2 [⟨"BSE", symB⟩, ⟨"NSI", symA⟩]).1 := by
    unfold attemptStep
    rw [h]
    simp
  have hpc : priceCallsOf (attemptStep env isin 0 3 2).1 = symA :: rest := by
    rw [hstep1, priceCallsOf_searchCall_cons, hqp]
  cases hc : (attemptStep env isin 0 3 2).2 with
  | done r =>
    have hrun : fetch_current_price env isin =
        ((attemptStep env isin 0 3 2).1, r) := fetchLoop_succ_done 2 hc
    rw [hrun]
    simp [hpc]
  | next =>
    have hrun : fetch_current_price env isin =
        ((attemptStep env isin 0 3 2).1 ++ (fetchLoop env isin 3 2 1 2).1,
          (fetchLoop env isin 3 2 1 2).2) := fetchLoop_succ_next 2 hc
    rw [hrun]
    simp [priceCallsOf_append, hpc]

/-- Witness for C6 at a concrete environment listing the BSE candidate
first. -/
theorem C6_witness :
    strEndsWith "N.NS" ".NS" = true ∧
    strEndsWith "B.BO" ".BO" = true ∧
    envPref.search "X" 0 =
      SearchOutcome.resp 200 [⟨"BSE", "B.BO"⟩, ⟨"NSI", "N.NS"⟩] ∧
    (priceCallsOf (fetch_current_price envPref "X").1).head? = some "N.NS" :=
  ⟨by decide, by decide, rfl,
    C6_prefers_primary_exchange envPref "X" "N.NS" "B.BO" (by decide)
      (by decide) rfl⟩

/-- C7: for every environment, including ones that rate limit, raise, or
fail on every call, the batch run completes and returns one output row per
input row with the identifier, balance and rate preserved: per-identifier
failures are captured as data and never abort the batch. -/
theorem C7_failures_never_abort_batch (env : Env) (df : List Row) :
    (get_current_prices env df).2.map OutRow.isin = df.map Row.isin ∧
    (get_current_prices env df).2.map OutRow.balance = df.map Row.balance ∧
    (get_current_prices env df).2.map OutRow.rate = df.map Row.rate := by
  refine ⟨?_, ?_, ?_⟩ <;>
    · rw [get_current_prices_rows, List.map_map]
      rfl

/-- C8 counterexample: an environment whose price source reports -5 makes
the lookup return -5 as a resolved price, which is not positive. -/
theorem C8_counterexample :
    (fetch_current_price envNeg "X").2 = some (-5) ∧ ¬ (0 : Int) < -5 :=
  ⟨by decide, by decide⟩

/-- C8 amended: every resolved price the lookup returns is nonzero (the
code only checks Python truthiness), and it is positive whenever the price
source only reports positive values. -/
theorem C8_resolved_price_nonzero (env : Env) (isin : String) (v : Int)
    (h : (fetch_current_price env isin).2 = some v) :
    v ≠ 0 ∧
    ((∀ s p, env.price s = PriceOutcome.val (some p) → 0 < p) → 0 < v) := by
  obtain ⟨hv, s, hs⟩ := @fetchLoop_some env isin 3 2 3 0 v h
  exact ⟨hv, fun hpos => hpos s v hs⟩

/-- Witness for C8 at the concrete environment with price 10. -/
theorem C8_witness :
    (fetch_current_price envOk "X").2 = some 10 ∧
    ((10 : Int) ≠ 0 ∧
      ((∀ s p, envOk.price s = PriceOutcome.val (some p) → 0 < p) →
        (0 : Int) < 10)) :=
  ⟨by decide, C8_resolved_price_nonzero envOk "X" 10 (by decide)⟩

/-- C9: every output row whose current price is unresolved gets
Current Value = Balance * Rate, and every row with a resolved price gets
Current Value = Balance * price. -/
theorem C9_fallback_current_value (env : Env) (df : List Row) (r : OutRow)
    (h : r ∈ (get_current_prices env df).2) :
    (r.currentPrice = none → r.currentValue = r.balance * r.rate) ∧
    (∀ v, r.currentPrice = some v → r.currentValue = r.balance * v) := by
  rw [get_current_prices_rows] at h
  obtain ⟨x, hx, rfl⟩ := List.mem_map.mp h
  constructor
  · intro hp
    dsimp only at hp ⊢
    simp [hp]
  · intro v hp
    dsimp only at hp ⊢
    simp [hp]

/-- Witness for C9 at a concrete unresolved row: balance 2, rate 7,
current value 14. -/
theorem C9_witness :
    ((⟨"A", 2, 7, none, 14⟩ : OutRow) ∈
      (get_current_prices env429 [(⟨"A", 2, 7⟩ : Row)]).2) ∧
    (((⟨"A", 2, 7, none, 14⟩ : OutRow).currentPrice = none →
        (⟨"A", 2, 7, none, 14⟩ : OutRow).currentValue =
          (⟨"A", 2, 7, none, 14⟩ : OutRow).balance *
            (⟨"A", 2, 7, none, 14⟩ : OutRow).rate) ∧
      (∀ v, (⟨"A", 2, 7, none, 14⟩ : OutRow).currentPrice = some v →
        (⟨"A", 2, 7, none, 14⟩ : OutRow).currentValue =
          (⟨"A", 2, 7, none, 14⟩ : OutRow).balance * v)) :=
  ⟨by decide, C9_fallback_current_value env429 [⟨"A", 2, 7⟩]
    ⟨"A", 2, 7, none, 14⟩ (by decide)⟩

/-- C10: when the NSE candidate of a search result has no truthy price, the
lookup does not record the identifier unresolved at once: it fetches the
price of each BSE candidate in search-result order, returns the first
truthy one, and only warns no-price and returns unresolved when every BSE
candidate fails. -/
theorem C10_bse_fallback_order (env : Env) (isin : String)
    (quotes : List Quote) (t : String) (p : Option Int)
    (hs : env.search isin 0 = SearchOutcome.resp 200 quotes)
    (ht : findNse quotes = some t)
    (hp : env.price t = PriceOutcome.val p)
    (hf : truthy p = false)
    (hb : ∀ s ∈ bseSyms quotes, env.price s ≠ PriceOutcome.exc) :
    (fetch_current_price env isin).2 = firstPrice env (bseSyms quotes) ∧
    priceCallsOf (fetch_current_price env isin).1 =
      t :: scannedBse env (bseSyms quotes) ∧
    (firstPrice env (bseSyms quotes) = none →
      Event.warn (Warning.noPrice isin) ∈ (fetch_current_price env isin).1) := by
  obtain ⟨hok, hcalls⟩ := bseLoop_spec quotes hb
  have hne : quotes.isEmpty = false := by
    cases quotes with
    | nil => simp [findNse] at ht
    | cons q qs => rfl
  have hbp : (bsePhase env isin 0 3 2 quotes).2 =
        Control.done (firstPrice env (bseSyms quotes)) ∧
      priceCallsOf (bsePhase env isin 0 3 2 quotes).1 =
        scannedBse env (bseSyms quotes) ∧
      (firstPrice env (bseSyms quotes) = none →
        Event.warn (Warning.noPrice isin) ∈
          (bsePhase env isin 0 3 2 quotes).1) := by
    cases hfp : firstPrice env (bseSyms quotes) with
    | some v =>
      rw [hfp] at hok
      refine ⟨?_, ?_, fun hcon => by cases hcon⟩
      · unfold bsePhase
        simp [hok]
      · unfold bsePhase
        simp [hok, hcalls]
    | none =>
      rw [hfp] at hok
      refine ⟨?_, ?_, fun _ => ?_⟩
      · unfold bsePhase
        simp [hok]
      · unfold bsePhase
        simp [hok, priceCallsOf_append, priceCallsOf_warn_cons,
          priceCallsOf_nil, hcalls]
      · unfold bsePhase
        simp [hok]
  obtain ⟨hb2, hbcalls, hbmem⟩ := hbp
  have hqp1 : (quotesPhase env isin 0 3 2 quotes).1 =
      Event.priceCall t :: (bsePhase env isin 0 3 2 quotes).1 := by
    unfold quotesPhase
    simp [ht, hp, hf]
  have hc : (attemptStep env isin 0 3 2).2 =
      Control.done (firstPrice env (bseSyms quotes)) := by
    have hst2 : (attemptStep env isin 0 3 2).2 =
        (quotesPhase env isin 0 3 2 quotes).2 := by
      unfold attemptStep
      rw [hs]
      simp [hne]
    have hqp2 : (quotesPhase env isin 0 3 2 quotes).2 =
        (bsePhase env isin 0 3 2 quotes).2 := by
      unfold quotesPhase
      simp [ht, hp, hf]
    rw [hst2, hqp2, hb2]
  have hst1 : (attemptStep env isin 0 3 2).1 =
      Event.searchCall isin :: (quotesPhase env isin 0 3 2 quotes).1 := by
    unfold attemptStep
    rw [hs]
    simp [hne]
  have hrun : fetch_current_price env isin =
      ((attemptStep env isin 0 3 2).1, firstPrice env (bseSyms quotes)) :=
    fetchLoop_succ_done 2 hc
  refine ⟨?_, ?_, ?_⟩
  · rw [hrun]
  · rw [hrun]
    dsimp only
    rw [hst1, priceCallsOf_searchCall_cons, hqp1, priceCallsOf_priceCall_cons,
      hbcalls]
  · intro hnone
    rw [hrun]
    dsimp only
    rw [hst1, hqp1]
    have hmem := hbmem hnone
    simp [List.mem_cons, hmem]

/-- Witness for C10 at the concrete environment where only the second BSE
candidate has a price. -/
theorem C10_witness :
    envBse.search "X" 0 = SearchOutcome.resp 200
      [⟨"NSI", "N.NS"⟩, ⟨"BSE", "B1.BO"⟩, ⟨"BSE", "B2.BO"⟩] ∧
    findNse [(⟨"NSI", "N.NS"⟩ : Quote), ⟨"BSE", "B1.BO"⟩, ⟨"BSE", "B2.BO"⟩] =
      some "N.NS" ∧
    envBse.price "N.NS" = PriceOutcome.val none ∧
    truthy none = false ∧
    ((fetch_current_price envBse "X").2 = firstPrice envBse
        (bseSyms [⟨"NSI", "N.NS"⟩, ⟨"BSE", "B1.BO"⟩, ⟨"BSE", "B2.BO"⟩]) ∧
      priceCallsOf (fetch_current_price envBse "X").1 = "N.NS" :: scannedBse
        envBse (bseSyms [⟨"NSI", "N.NS"⟩, ⟨"BSE", "B1.BO"⟩, ⟨"BSE", "B2.BO"⟩]) ∧
      (firstPrice envBse
          (bseSyms [⟨"NSI", "N.NS"⟩, ⟨"BSE", "B1.BO"⟩, ⟨"BSE", "B2.BO"⟩]) =
          none →
        Event.warn (Warning.noPrice "X") ∈
          (fetch_current_price envBse "X").1)) :=
  ⟨rfl, by decide, by decide, by decide,
    C10_bse_fallback_order envBse "X"
      [⟨"NSI", "N.NS"⟩, ⟨"BSE", "B1.BO"⟩, ⟨"BSE", "B2.BO"⟩] "N.NS" none
      rfl (by decide) (by decide) (by decide) (by decide)⟩

end Portfolio
